import Mathlib

/-!
Verification of the happy-cli Kimi agent bridge.

This file gives a shallow embedding, in Lean 4, of the parts of the
repository that the checked properties are about:

* `KimiPermissionHandler` (`src/packages/happy-cli/src/kimi/utils/permissionHandler.ts`)
* `ApiSessionClient` version handling (`src/packages/happy-cli/src/agent/core/AgentBackend.ts`)
* the `runKimi` orchestrator main loop, session-swap logic and abort handler
  (`src/packages/happy-cli/src/kimi/runKimi.ts`)
* `KimiTransport.filterStdoutLine` (the Kimi transport handler)
* `determineKimiModel` / `getKimiModelSource` (`src/packages/happy-cli/src/kimi/utils/config.ts`)

Strings are modelled as Lean `String`s (tool names in this code base are
ASCII, so the ASCII `Char.toLower` faithfully models JavaScript
`toLowerCase` on them); JavaScript `Map`s and free-form records are
modelled as association lists; time stamps and logging are not modelled.
-/

/-! ## JavaScript string helpers -/

/-- Does the list start with the given pattern (JS `String.startsWith`)? -/
def startsWithList : List Char → List Char → Bool
  | _, [] => true
  | [], _ :: _ => false
  | c :: cs, d :: ds => c = d && startsWithList cs ds

/-- Substring containment on character lists (JS `String.includes`). -/
def hasSub (needle : List Char) : List Char → Bool
  | [] => startsWithList [] needle
  | c :: t => startsWithList (c :: t) needle || hasSub needle t

/-- JS `hay.includes(needle)` on strings. -/
def jsIncludes (hay needle : String) : Bool :=
  hasSub needle.data hay.data

/-- JS `toLowerCase` (ASCII; the tool/model names involved are ASCII). -/
def jsToLower (s : String) : String :=
  ⟨s.data.map Char.toLower⟩

/-! ## Permission handler (`KimiPermissionHandler`) -/

/-- Permission modes (`PermissionMode` in `@/api/types`). -/
inductive PermissionMode where
  | default
  | readOnly
  | safeYolo
  | yolo
deriving DecidableEq, Repr

/-- Permission decisions carried in a resolved `PermissionResult`. -/
inductive Decision where
  | approved
  | approvedForSession
deriving DecidableEq, Repr

/-- Outcome of `handleToolCall`: either an immediately resolved decision, or a
promise that stays pending until a remote decision arrives. -/
inductive HandleResult where
  | resolved (d : Decision)
  | pending
deriving DecidableEq, Repr

/-- The `alwaysAutoApproveNames` list (permissionHandler.ts line 40). -/
def alwaysAutoApproveNames : List String :=
  ["change_title", "happy__change_title", "KimiReasoning", "think", "save_memory"]

/-- The `alwaysAutoApproveIds` list (permissionHandler.ts line 41). -/
def alwaysAutoApproveIds : List String :=
  ["change_title", "save_memory"]

/-- The `writeTools` keyword list of the `read-only` branch (line 57). -/
def writeTools : List String :=
  ["write", "edit", "create", "delete", "patch", "fs-edit"]

/-- Check of `toolName` against the always-auto-approve name list (lines 43-45). -/
def nameMatchesAutoApprove (toolName : String) : Bool :=
  alwaysAutoApproveNames.any (fun name => jsIncludes (jsToLower toolName) (jsToLower name))

/-- Check of `toolCallId` against the always-auto-approve id list (lines 47-49). -/
def idMatchesAutoApprove (toolCallId : String) : Bool :=
  alwaysAutoApproveIds.any (fun id => jsIncludes (jsToLower toolCallId) (jsToLower id))

/-- `KimiPermissionHandler.shouldAutoApprove` (permissionHandler.ts lines 39-64). -/
def shouldAutoApprove (mode : PermissionMode) (toolName toolCallId : String) : Bool :=
  if nameMatchesAutoApprove toolName then true
  else if idMatchesAutoApprove toolCallId then true
  else match mode with
    | .yolo => true
    | .safeYolo => true
    | .readOnly => ! (writeTools.any (fun wt => jsIncludes (jsToLower toolName) wt))
    | .default => false

/-- A completed permission request entry as written into
`agentState.completedRequests` (lines 76-86; `createdAt`/`completedAt`
time stamps and the `status` field, constantly `approved` there, are not
modelled). -/
structure CompletedEntry where
  tool : String
  arguments : String
  decision : Decision
deriving DecidableEq, Repr

/-- The agent-state blob mirrored to the remote party: pending and completed
permission requests, keyed by call id (association lists model the JS
records; an update prepends the new binding). -/
structure KimiAgentState where
  pendingRequests : List (String × String × String)
  completedRequests : List (String × CompletedEntry)
deriving DecidableEq, Repr

/-- State of a `KimiPermissionHandler`: the current permission mode, the
in-memory `pendingRequests` map of the handler, and the session agent
state it mirrors decisions into. -/
structure HandlerState where
  currentPermissionMode : PermissionMode
  pendingRequests : List (String × String × String)
  agentState : KimiAgentState
deriving DecidableEq, Repr

/-- `KimiPermissionHandler.handleToolCall` (permissionHandler.ts lines 66-106).
On auto-approval it records the decision in `agentState.completedRequests`
and resolves at once; otherwise it stores a pending continuation in the
in-memory `pendingRequests` map and — via `addPendingRequestToState`,
modelled from the spec: `BasePermissionHandler.addPendingRequestToState` is
not under src/, the spec says a Pending Permission Request is recorded —
mirrors the pending entry into `agentState.pendingRequests`. -/
def handleToolCall (st : HandlerState) (toolCallId toolName input : String) :
    HandleResult × HandlerState :=
  if shouldAutoApprove st.currentPermissionMode toolName toolCallId then
    let d := if st.currentPermissionMode = .yolo then
        Decision.approvedForSession
      else
        Decision.approved
    (HandleResult.resolved d,
      { st with agentState := { st.agentState with
          completedRequests :=
            (toolCallId, { tool := toolName, arguments := input, decision := d })
              :: st.agentState.completedRequests } })
  else
    (HandleResult.pending,
      { st with
          pendingRequests := (toolCallId, toolName, input) :: st.pendingRequests,
          agentState := { st.agentState with
            pendingRequests := (toolCallId, toolName, input) :: st.agentState.pendingRequests } })

/-! ## Model selection (`config.ts`) -/

/-- JS truthiness of a `string | null | undefined` value (empty string is falsy). -/
def truthyStr : Option String → Bool
  | some s => s ≠ ""
  | none => false

/-- JS `a || d` for a possibly absent string `a` and fallback `d`. -/
def orElseStr (o : Option String) (d : String) : String :=
  match o with
  | some s => if s = "" then d else s
  | none => d

/-- The `DEFAULT_KIMI_MODEL` constant (constants.ts). -/
def DEFAULT_KIMI_MODEL : String := "kimi-latest"

/-- `determineKimiModel` (config.ts lines 155-175). The first argument models
the TS `string | null | undefined`: `none` is `undefined`, `some none` is
`null`, `some (some m)` is the string `m`. `envModel` models
`process.env[KIMI_MODEL_ENV]` and `localModel` models `localConfig.model`. -/
def determineKimiModel (explicitModel : Option (Option String))
    (envModel localModel : Option String) : String :=
  match explicitModel with
  | some (some m) => m
  | some none => orElseStr envModel DEFAULT_KIMI_MODEL
  | none => orElseStr envModel (orElseStr localModel DEFAULT_KIMI_MODEL)

/-- The four source labels returned by `getKimiModelSource`. -/
inductive ModelSource where
  | explicitSrc
  | envVar
  | localConfig
  | defaultSrc
deriving DecidableEq, Repr

/-- `getKimiModelSource` (config.ts lines 234-247). -/
def getKimiModelSource (explicitModel : Option (Option String))
    (envModel localModel : Option String) : ModelSource :=
  match explicitModel with
  | some (some _) => .explicitSrc
  | _ =>
    if truthyStr envModel then .envVar
    else if truthyStr localModel then .localConfig
    else .defaultSrc

/-! ## Kimi transport handler (`KimiTransport.filterStdoutLine`)

The line filter calls the ECMAScript built-in `JSON.parse`; the JSON
grammar of ECMA-404 / `JSON.parse` is embedded below as an executable
fuel-indexed recursive-descent recognizer over character lists.  Lines are
modelled as `List Char`. -/

/-- JSON insignificant whitespace (space, tab, line feed, carriage return). -/
def isJsonWs (c : Char) : Bool :=
  c = ' ' || c = '\t' || c = '\n' || c = '\r'

/-- Skip JSON whitespace. -/
def skipWs (s : List Char) : List Char :=
  s.dropWhile isJsonWs

/-- Characters removed by JS `String.trim`: JSON whitespace plus vertical
tab, form feed, NBSP, line/paragraph separator and BOM (the Unicode `Zs`
stragglers are omitted; they do not occur in agent output). -/
def isJsTrimWs (c : Char) : Bool :=
  isJsonWs c || c = '\x0b' || c = '\x0c' || c.toNat = 160 ||
    c.toNat = 8232 || c.toNat = 8233 || c.toNat = 65279

/-- JS `String.trim` on a character list. -/
def jsTrim (s : List Char) : List Char :=
  ((s.dropWhile isJsTrimWs).reverse.dropWhile isJsTrimWs).reverse

/-- Parsed JSON values (payloads of numbers and strings are irrelevant to
the filter and are not retained; object member values are kept in order,
their keys having been validated by the grammar). -/
inductive Json where
  | null
  | boolean (b : Bool)
  | number
  | str
  | arr (elems : List Json)
  | obj (members : List Json)
deriving Repr

/-- JS `typeof v === "object" && v !== null` for a parsed JSON value:
true exactly for objects and arrays (KimiTransport lines 82-85). -/
def Json.isObjOrArr : Json → Bool
  | .arr _ => true
  | .obj _ => true
  | _ => false

/-- Is the character a hexadecimal digit (for `\u` escapes)? -/
def isHexDigitChar (c : Char) : Bool :=
  c.isDigit || ('a' ≤ c && c ≤ 'f') || ('A' ≤ c && c ≤ 'F')

/-- Recognize the remainder of a JSON string literal after the opening
quote; returns the input that follows the closing quote. -/
def parseStringRest : List Char → Option (List Char)
  | [] => none
  | '"' :: t => some t
  | '\\' :: e :: t =>
    if e = 'u' then
      match t with
      | h1 :: h2 :: h3 :: h4 :: t2 =>
        if isHexDigitChar h1 && isHexDigitChar h2 && isHexDigitChar h3 && isHexDigitChar h4 then
          parseStringRest t2
        else none
      | _ => none
    else if e = '"' || e = '\\' || e = '/' || e = 'b' || e = 'f' ||
        e = 'n' || e = 'r' || e = 't' then
      parseStringRest t
    else none
  | c :: t => if c.toNat < 32 then none else parseStringRest t

/-- Recognize an optional JSON exponent part; returns the rest of the input. -/
def parseExpPart (s : List Char) : Option (List Char) :=
  match s with
  | e :: t =>
    if e = 'e' || e = 'E' then
      let t2 := match t with
        | c :: u => if c = '+' || c = '-' then u else t
        | [] => t
      match t2 with
      | c :: _ => if c.isDigit then some (t2.dropWhile Char.isDigit) else none
      | [] => none
    else some s
  | [] => some []

/-- Recognize an optional JSON fraction part followed by an optional
exponent part. -/
def parseFracPart (s : List Char) : Option (List Char) :=
  match s with
  | '.' :: t =>
    match t with
    | c :: _ => if c.isDigit then parseExpPart (t.dropWhile Char.isDigit) else none
    | [] => none
  | _ => parseExpPart s

/-- Recognize a JSON number starting at the head of the input (the caller
has checked the head is `-` or a digit); returns the rest of the input. -/
def parseNumber (s : List Char) : Option (List Char) :=
  let s1 := match s with
    | '-' :: t => t
    | _ => s
  match s1 with
  | '0' :: t => parseFracPart t
  | c :: _ =>
    if c.isDigit then parseFracPart (s1.dropWhile Char.isDigit) else none
  | [] => none

/-- Parsing modes of the JSON recognizer: a single value, the element list
of an array after `[`, or the member list of an object after `\x7b`. -/
inductive PMode where
  | val
  | arrRest (acc : List Json)
  | objRest (acc : List Json)

/-- Fuel-indexed recursive-descent parser for the `JSON.parse` grammar.
Returns the parsed value and the unconsumed rest of the input. -/
def parseJ : Nat → PMode → List Char → Option (Json × List Char)
  | 0, _, _ => none
  | fuel + 1, .val, s =>
    match skipWs s with
    | [] => none
    | c :: t =>
      if c = '\x7b' then
        match skipWs t with
        | '\x7d' :: t2 => some (.obj [], t2)
        | _ => parseJ fuel (.objRest []) t
      else if c = '[' then
        match skipWs t with
        | ']' :: t2 => some (.arr [], t2)
        | _ => parseJ fuel (.arrRest []) t
      else if c = '"' then
        (parseStringRest t).map (fun r => (.str, r))
      else if c = 't' then
        match t with
        | 'r' :: 'u' :: 'e' :: t2 => some (.boolean true, t2)
        | _ => none
      else if c = 'f' then
        match t with
        | 'a' :: 'l' :: 's' :: 'e' :: t2 => some (.boolean false, t2)
        | _ => none
      else if c = 'n' then
        match t with
        | 'u' :: 'l' :: 'l' :: t2 => some (.null, t2)
        | _ => none
      else if c = '-' || c.isDigit then
        (parseNumber (c :: t)).map (fun r => (.number, r))
      else none
  | fuel + 1, .arrRest acc, s =>
    match parseJ fuel .val s with
    | none => none
    | some (v, r) =>
      match skipWs r with
      | ',' :: r2 => parseJ fuel (.arrRest (acc ++ [v])) r2
      | ']' :: r2 => some (.arr (acc ++ [v]), r2)
      | _ => none
  | fuel + 1, .objRest acc, s =>
    match skipWs s with
    | '"' :: t =>
      match parseStringRest t with
      | none => none
      | some r =>
        match skipWs r with
        | ':' :: r2 =>
          match parseJ fuel .val r2 with
          | none => none
          | some (v, r3) =>
            match skipWs r3 with
            | ',' :: r4 => parseJ fuel (.objRest (acc ++ [v])) r4
            | '\x7d' :: r4 => some (.obj (acc ++ [v]), r4)
            | _ => none
        | _ => none
    | _ => none

/-- `JSON.parse` on a whole text: one JSON value with only whitespace
around it.  The fuel `2 * length + 2` dominates the recursion depth (each
unit of nesting or element consumes at least one character and costs at
most two fuel). -/
def jsonParse (s : List Char) : Option Json :=
  match parseJ (2 * s.length + 2) .val s with
  | some (v, rest) => if (skipWs rest).isEmpty then some v else none
  | none => none

/-- `KimiTransport.filterStdoutLine` (KimiTransport.ts lines 66-90): trim;
drop empty lines; drop lines not starting with `\x7b` or `[`; parse, and
keep the original line only when the parse succeeds with an object or an
array. -/
def filterStdoutLine (line : List Char) : Option (List Char) :=
  let trimmed := jsTrim line
  if trimmed.isEmpty then none
  else if ! (startsWithList trimmed ['\x7b'] || startsWithList trimmed ['[']) then none
  else match jsonParse trimmed with
    | some v => if v.isObjOrArr then some line else none
    | none => none

/-! ## Session state channel (`ApiSessionClient`)

The client holds decrypted `metadata` / `agentState` blobs with their
versions.  Encryption round-trips (`decrypt (encrypt x) = x`), so values
are modelled post-decryption as opaque strings.  Versions are the relay's
counters, modelled as naturals. -/

/-- Decrypted metadata / agent-state blob. -/
abbrev Blob := String

/-- Local versioned state of an `ApiSessionClient` (AgentBackend.ts lines
216-219). -/
structure ClientState where
  metadata : Option Blob
  metadataVersion : Nat
  agentState : Option Blob
  agentStateVersion : Nat
deriving DecidableEq, Repr

/-- Metadata snapshot of an `update-session` envelope (value plus version). -/
structure MetaSnapshot where
  value : Blob
  version : Nat
deriving DecidableEq, Repr

/-- Agent-state snapshot of an `update-session` envelope; the value can be
null (line 327: `data.body.agentState.value ? decrypt(...) : null`). -/
structure StateSnapshot where
  value : Option Blob
  version : Nat
deriving DecidableEq, Repr

/-- Body of an `update-session` envelope: optional metadata and/or
agent-state snapshots. -/
structure UpdateSessionBody where
  metadata : Option MetaSnapshot
  agentState : Option StateSnapshot
deriving DecidableEq, Repr

/-- The socket `update` handler for `update-session` envelopes
(AgentBackend.ts lines 321-329): each snapshot is adopted, value and
version together, only when its version is strictly greater than the
locally held one. -/
def applyUpdateSession (st : ClientState) (b : UpdateSessionBody) : ClientState :=
  let st1 := match b.metadata with
    | some m =>
      if m.version > st.metadataVersion then
        { st with metadata := some m.value, metadataVersion := m.version }
      else st
    | none => st
  match b.agentState with
  | some a =>
    if a.version > st1.agentStateVersion then
      { st1 with agentState := a.value, agentStateVersion := a.version }
    else st1
  | none => st1

/-- Relay answer to an `update-metadata` write (lines 567-579). -/
inductive MetaAnswer where
  | success (value : Blob) (version : Nat)
  | versionMismatch (value : Blob) (version : Nat)
  | hardError
deriving DecidableEq, Repr

/-- Relay answer to an `update-state` write (lines 593-607); returned
agent-state values can be null. -/
inductive StateAnswer where
  | success (value : Option Blob) (version : Nat)
  | versionMismatch (value : Option Blob) (version : Nat)
  | hardError
deriving DecidableEq, Repr

/-- One attempt of `updateMetadata` (AgentBackend.ts lines 563-582), taken
as an atomic step: the handler computes the next value, the write is sent
with `expectedVersion = metadataVersion`, and the relay's answer is
adopted as in the source.  Backoff retries are further events of the
trace. -/
def applyMetadataAnswer (st : ClientState) : MetaAnswer → ClientState
  | .success v n => { st with metadata := some v, metadataVersion := n }
  | .versionMismatch v n =>
    if n > st.metadataVersion then
      { st with metadata := some v, metadataVersion := n }
    else st
  | .hardError => st

/-- One attempt of `updateAgentState` (AgentBackend.ts lines 588-610),
atomic as for `applyMetadataAnswer`. -/
def applyStateAnswer (st : ClientState) : StateAnswer → ClientState
  | .success v n => { st with agentState := v, agentStateVersion := n }
  | .versionMismatch v n =>
    if n > st.agentStateVersion then
      { st with agentState := v, agentStateVersion := n }
    else st
  | .hardError => st

/-- Events observed by the client: an inbound `update-session` envelope, or
the completion of one optimistic-write attempt on either field group. -/
inductive ClientEvent where
  | envelope (b : UpdateSessionBody)
  | metaWrite (a : MetaAnswer)
  | stateWrite (a : StateAnswer)
deriving DecidableEq, Repr

/-- Transition of the client state on one event. -/
def stepClient (st : ClientState) : ClientEvent → ClientState
  | .envelope b => applyUpdateSession st b
  | .metaWrite a => applyMetadataAnswer st a
  | .stateWrite a => applyStateAnswer st a

/-- Validity of an event against the current state.  Modelled from the
spec: the relay assigns the authoritative version on each accepted write
and accepts a write only when `expectedVersion` matches, so a `success`
answer carries a version strictly greater than the `expectedVersion` the
client sent — which, in an atomic write attempt, is the client's current
version.  Envelopes and failure answers are unconstrained. -/
def ClientEvent.valid (st : ClientState) : ClientEvent → Prop
  | .metaWrite (.success _ n) => st.metadataVersion < n
  | .stateWrite (.success _ n) => st.agentStateVersion < n
  | _ => True

/-- A trace of events, each valid in the state it is applied to. -/
inductive ValidTrace : ClientState → List ClientEvent → Prop
  | nil (st : ClientState) : ValidTrace st []
  | cons {st : ClientState} {e : ClientEvent} {es : List ClientEvent}
      (hv : e.valid st) (hrest : ValidTrace (stepClient st e) es) :
      ValidTrace st (e :: es)

/-- Does the event carry the given metadata (value, version) pair? -/
def metaPairOf : ClientEvent → Option Blob × Nat → Prop
  | .envelope b, p => ∃ m, b.metadata = some m ∧ p = (some m.value, m.version)
  | .metaWrite (.success v n), p => p = (some v, n)
  | .metaWrite (.versionMismatch v n), p => p = (some v, n)
  | _, _ => False

/-- Does the event carry the given agent-state (value, version) pair? -/
def statePairOf : ClientEvent → Option Blob × Nat → Prop
  | .envelope b, p => ∃ a, b.agentState = some a ∧ p = (a.value, a.version)
  | .stateWrite (.success v n), p => p = (v, n)
  | .stateWrite (.versionMismatch v n), p => p = (v, n)
  | _, _ => False

/-- One step is well behaved: both versions never decrease, and each of
the two (value, version) pairs is either left untouched or adopted whole
from the event. -/
def StepOK (st : ClientState) (e : ClientEvent) : Prop :=
  let st2 := stepClient st e
  st.metadataVersion ≤ st2.metadataVersion ∧
  st.agentStateVersion ≤ st2.agentStateVersion ∧
  ((st2.metadata, st2.metadataVersion) = (st.metadata, st.metadataVersion) ∨
    metaPairOf e (st2.metadata, st2.metadataVersion)) ∧
  ((st2.agentState, st2.agentStateVersion) = (st.agentState, st.agentStateVersion) ∨
    statePairOf e (st2.agentState, st2.agentStateVersion))

/-- Every step of the trace is well behaved (evaluated along the fold of
`stepClient`). -/
def TraceOK : ClientState → List ClientEvent → Prop
  | _, [] => True
  | st, e :: es => StepOK st e ∧ TraceOK (stepClient st e) es

/-! ## Mode hash of the message queue (`runKimi.ts` lines 178-181) -/

/-- The `KimiMode` record (`@/kimi/types`): permission mode, optional
model, and the display-only original user message. -/
structure KimiMode where
  permissionMode : PermissionMode
  model : Option String
  originalUserMessage : Option String
deriving DecidableEq, Repr

/-- The object handed to `hashObject` by the queue's hash function:
exactly the `permissionMode` and `model` fields of the mode. -/
structure ModeHashInput where
  permissionMode : PermissionMode
  model : Option String
deriving DecidableEq, Repr

/-- Fixed-width code of a permission mode inside the hash input encoding. -/
def pmCode : PermissionMode → List Char
  | .default => ['d', 'f']
  | .readOnly => ['r', 'o']
  | .safeYolo => ['s', 'y']
  | .yolo => ['y', 'o']

/-- Encoding of the optional model field; `null` and each string get
distinct images (the heads differ, and strings embed injectively). -/
def encModelField : Option String → List Char
  | none => ['n', 'u', 'l', 'l']
  | some s => 's' :: s.data

/-- Modelled from the spec: `hashObject` from `@/utils/deterministicJson`
(not under src/) — "a deterministic hash of `{permissionMode, model}`",
under which equal inputs hash equal and differing inputs hash different.
It is modelled as a canonical collision-free encoding of its argument (the
deterministic serialization text standing in for its digest). -/
def hashObject (x : ModeHashInput) : List Char :=
  pmCode x.permissionMode ++ encModelField x.model

/-- The hash function the message queue is constructed with (runKimi.ts
lines 178-181): `hashObject` of the mode's `permissionMode` and `model`. -/
def modeHash (m : KimiMode) : List Char :=
  hashObject { permissionMode := m.permissionMode, model := m.model }

/-! ## Orchestrator main loop (`runKimi.ts` lines 805-1092)

The loop state keeps the variables the restart logic reads and writes;
backends and ACP sessions are identified by naturals drawn from a
freshness counter.  External effects are recorded as an action trace. -/

/-- Observable actions of one main-loop iteration, in program order. -/
inductive LoopAction where
  | permissionReset
  | reasoningAbort
  | disposeBackend (b : Nat)
  | createBackend (b : Nat)
  | startAcpSession (b : Nat) (sid : Nat)
  | setPermissionMode (m : PermissionMode)
  | sendPrompt (sid : Nat) (prompt : List Char) (historyInjected : Bool)
deriving DecidableEq, Repr

/-- State of the main loop across iterations (runKimi.ts: the closure
variables `wasSessionCreated`, `currentModeHash`, `kimiBackend`,
`acpSessionId`, `first`, and whether `conversationHistory.hasHistory()`). -/
structure LoopState where
  wasSessionCreated : Bool
  currentModeHash : Option (List Char)
  backend : Option Nat
  acpSessionId : Option Nat
  firstFlag : Bool
  historyNonempty : Bool
  nextId : Nat
deriving DecidableEq, Repr

/-- A message dequeued from the mode-change coalescer: prompt text, the
mode it was tagged with, and the mode hash computed on push. -/
structure QueuedMessage where
  message : List Char
  mode : KimiMode
  hash : List Char
deriving DecidableEq, Repr

/-- One iteration of the `runKimi` main loop over a dequeued message
(runKimi.ts lines 835-990), from the mode-change restart check up to and
including `sendPrompt`.  `historyContext` models
`conversationHistory.getContextForNewSession()` (the `ConversationHistory`
class is not under src/; the context text is passed in opaquely).
UI, logging and `waitForResponseComplete` are not modelled; the errors
thrown at lines 947 and 962 surface as `Except.error`. -/
def processMessage (st : LoopState) (msg : QueuedMessage) (historyContext : List Char) :
    Except String (LoopState × List LoopAction) :=
  -- lines 836-898: mode-change restart
  let restartNeeded := st.wasSessionCreated &&
    (match st.currentModeHash with
      | some h => decide (msg.hash ≠ h)
      | none => false)
  let injectHistoryContext := restartNeeded && st.historyNonempty
  let (st1, acts1) :=
    if restartNeeded then
      let afterDispose : LoopState × List LoopAction :=
        match st.backend with
        | some b => ({ st with backend := none },
            [LoopAction.permissionReset, LoopAction.reasoningAbort, LoopAction.disposeBackend b])
        | none => (st, [LoopAction.permissionReset, LoopAction.reasoningAbort])
      let stA := afterDispose.fst
      let b2 := stA.nextId
      let sid2 := stA.nextId + 1
      ({ stA with
          backend := some b2,
          acpSessionId := some sid2,
          wasSessionCreated := true,
          currentModeHash := some msg.hash,
          firstFlag := false,
          nextId := stA.nextId + 2 },
        afterDispose.snd ++
          [LoopAction.createBackend b2, LoopAction.startAcpSession b2 sid2,
            LoopAction.setPermissionMode msg.mode.permissionMode])
    else (st, [])
  -- line 900: currentModeHash = message.hash
  let st2 := { st1 with currentModeHash := some msg.hash }
  -- lines 909-944: create backend / start session when first or not created
  let (st3, acts2) :=
    if st2.firstFlag || ! st2.wasSessionCreated then
      let (stB, actsB) :=
        match st2.backend with
        | none =>
          let b2 := st2.nextId
          ({ st2 with backend := some b2, nextId := st2.nextId + 1 },
            [LoopAction.createBackend b2])
        | some _ => (st2, [])
      match stB.acpSessionId with
      | none =>
        let sid2 := stB.nextId
        ({ stB with
            acpSessionId := some sid2,
            nextId := stB.nextId + 1,
            wasSessionCreated := true,
            currentModeHash := some msg.hash },
          actsB ++ [LoopAction.setPermissionMode msg.mode.permissionMode,
            LoopAction.startAcpSession (stB.backend.getD 0) sid2])
      | some _ => (stB, actsB)
    else (st2, [])
  -- lines 946-963: guards
  match st3.acpSessionId, st3.backend with
  | some sid, some _ =>
    -- lines 966-978: history injection and sendPrompt
    let promptToSend :=
      if injectHistoryContext && st3.historyNonempty then
        historyContext ++ msg.message
      else msg.message
    let st4 := { st3 with firstFlag := false }
    Except.ok (st4, acts1 ++ acts2 ++
      [LoopAction.sendPrompt sid promptToSend (injectHistoryContext && st3.historyNonempty)])
  | _, _ => Except.error "ACP session not started"

/-! ## Session swaps (`runKimi.ts` lines 122-160, 905-906, 1086-1088) -/

/-- State of the session-swap synchronization: the `isProcessingMessage`
flag, the queued `pendingSessionSwap`, the `session` binding, and the
permission handler's session (absent before the handler is constructed).
Session channel objects are identified by naturals. -/
structure SwapState where
  isProcessingMessage : Bool
  pendingSessionSwap : Option Nat
  sessionRef : Nat
  permissionHandlerSession : Option Nat
deriving DecidableEq, Repr

/-- `applyPendingSessionSwap` (runKimi.ts lines 129-138). -/
def applyPendingSessionSwap (st : SwapState) : SwapState :=
  match st.pendingSessionSwap with
  | some s =>
    { st with
        sessionRef := s,
        permissionHandlerSession := st.permissionHandlerSession.map (fun _ => s),
        pendingSessionSwap := none }
  | none => st

/-- The `onSessionSwap` callback (runKimi.ts lines 146-159): queue the
swap while a message is being processed, apply it immediately otherwise. -/
def onSessionSwap (newSession : Nat) (st : SwapState) : SwapState :=
  if st.isProcessingMessage then
    { st with pendingSessionSwap := some newSession }
  else
    { st with
        sessionRef := newSession,
        permissionHandlerSession := st.permissionHandlerSession.map (fun _ => newSession) }

/-- Start of a turn (runKimi.ts line 906: `isProcessingMessage = true`). -/
def beginTurn (st : SwapState) : SwapState :=
  { st with isProcessingMessage := true }

/-- End of the turn's `finally` block (runKimi.ts lines 1087-1088):
`isProcessingMessage = false` then `applyPendingSessionSwap()`. -/
def endTurnFinally (st : SwapState) : SwapState :=
  applyPendingSessionSwap { st with isProcessingMessage := false }

/-! ## Abort handling and the per-turn reset (`runKimi.ts` lines 318-343,
1045-1049) -/

/-- The orchestrator state touched by `handleAbort` and by the per-turn
`finally` reset: the Permission Gate's pending entries, the reasoning and
diff processors, the message queue size, and whether a backend cancel was
requested. -/
structure OrchState where
  pendingPermissions : List (String × String × String)
  reasoningActive : Bool
  diffAccumulating : Bool
  queuedMessages : Nat
  backendCancelRequested : Bool
deriving DecidableEq, Repr

/-- `handleAbort` (runKimi.ts lines 318-343): sends `turn_aborted`, calls
`reasoningProcessor.abort()` and `diffProcessor.reset()`, aborts the
controller, resets the message queue and cancels the backend.  It does
not call `permissionHandler.reset()`. -/
def handleAbort (st : OrchState) : OrchState :=
  { st with
      reasoningActive := false,
      diffAccumulating := false,
      queuedMessages := 0,
      backendCancelRequested := true }

/-- The per-turn `finally` reset (runKimi.ts lines 1045-1049):
`permissionHandler.reset()` — modelled from the spec:
`BasePermissionHandler.reset` is not under src/, the spec says the reset
operation clears all pending entries — then `reasoningProcessor.abort()`
and `diffProcessor.reset()`. -/
def turnFinallyReset (st : OrchState) : OrchState :=
  { st with
      pendingPermissions := [],
      reasoningActive := false,
      diffAccumulating := false }

/-- Is the action a backend dispose? -/
def LoopAction.isDispose : LoopAction → Bool
  | .disposeBackend _ => true
  | _ => false

/-- Is the action a backend creation? -/
def LoopAction.isCreate : LoopAction → Bool
  | .createBackend _ => true
  | _ => false

/-- Is the action an ACP session start? -/
def LoopAction.isStart : LoopAction → Bool
  | .startAcpSession _ _ => true
  | _ => false

/-- Is the action a prompt forward? -/
def LoopAction.isSend : LoopAction → Bool
  | .sendPrompt _ _ _ => true
  | _ => false

instance (st : ClientState) (e : ClientEvent) : Decidable (e.valid st) :=
  match e with
  | .envelope _ => isTrue trivial
  | .metaWrite (.success _ n) => inferInstanceAs (Decidable (st.metadataVersion < n))
  | .metaWrite (.versionMismatch _ _) => isTrue trivial
  | .metaWrite .hardError => isTrue trivial
  | .stateWrite (.success _ n) => inferInstanceAs (Decidable (st.agentStateVersion < n))
  | .stateWrite (.versionMismatch _ _) => isTrue trivial
  | .stateWrite .hardError => isTrue trivial

/-! ## Helper lemmas -/

/-- A tool call matching the always-auto-approve name or id list is
auto-approved in every mode. -/
theorem shouldAutoApprove_of_match {name cid : String} (mode : PermissionMode)
    (h : nameMatchesAutoApprove name = true ∨ idMatchesAutoApprove cid = true) :
    shouldAutoApprove mode name cid = true := by
  unfold shouldAutoApprove
  rcases h with h | h
  · simp [h]
  · simp [h]

/-- In `yolo` mode every tool call is auto-approved. -/
theorem shouldAutoApprove_yolo (name cid : String) :
    shouldAutoApprove .yolo name cid = true := by
  unfold shouldAutoApprove
  split
  · rfl
  split
  · rfl
  · rfl

/-- Trimming a whitespace-only line gives the empty list. -/
theorem jsTrim_eq_nil {line : List Char} (h : line.all isJsTrimWs = true) :
    jsTrim line = [] := by
  unfold jsTrim
  have h1 : line.dropWhile isJsTrimWs = [] := by
    rw [List.dropWhile_eq_nil_iff]
    intro x hx
    exact List.all_eq_true.mp h x hx
  rw [h1]
  simp

/-- Permission-mode codes have width two. -/
theorem pmCode_length (a : PermissionMode) : (pmCode a).length = 2 := by
  cases a <;> rfl

/-- Permission-mode codes are injective. -/
theorem pmCode_inj {a b : PermissionMode} (h : pmCode a = pmCode b) : a = b := by
  cases a <;> cases b <;> first | rfl | simp [pmCode] at h

/-- The model-field encoding is injective. -/
theorem encModelField_inj {o1 o2 : Option String} (h : encModelField o1 = encModelField o2) :
    o1 = o2 := by
  cases o1 with
  | none =>
    cases o2 with
    | none => rfl
    | some s => simp [encModelField] at h
  | some s =>
    cases o2 with
    | none => simp [encModelField] at h
    | some t =>
      cases s with
      | mk sd =>
        cases t with
        | mk td =>
          simp [encModelField] at h
          simp [h]

/-- The modelled deterministic hash is collision-free. -/
theorem hashObject_inj {x y : ModeHashInput} (h : hashObject x = hashObject y) : x = y := by
  unfold hashObject at h
  have hlen : (pmCode x.permissionMode).length = (pmCode y.permissionMode).length := by
    rw [pmCode_length, pmCode_length]
  obtain ⟨h1, h2⟩ := List.append_inj h hlen
  cases x
  cases y
  simp only [ModeHashInput.mk.injEq]
  exact ⟨pmCode_inj h1, encModelField_inj h2⟩

/-- Metadata fields after an `update-session` envelope. -/
theorem applyUpdateSession_metaFields (st : ClientState) (b : UpdateSessionBody) :
    ((applyUpdateSession st b).metadata, (applyUpdateSession st b).metadataVersion)
      = match b.metadata with
        | some m =>
          if st.metadataVersion < m.version then (some m.value, m.version)
          else (st.metadata, st.metadataVersion)
        | none => (st.metadata, st.metadataVersion) := by
  unfold applyUpdateSession
  rcases b.metadata with _ | m <;> rcases b.agentState with _ | a <;> simp
  all_goals repeat' split
  all_goals simp

/-- Agent-state fields after an `update-session` envelope. -/
theorem applyUpdateSession_stateFields (st : ClientState) (b : UpdateSessionBody) :
    ((applyUpdateSession st b).agentState, (applyUpdateSession st b).agentStateVersion)
      = match b.agentState with
        | some a =>
          if st.agentStateVersion < a.version then (a.value, a.version)
          else (st.agentState, st.agentStateVersion)
        | none => (st.agentState, st.agentStateVersion) := by
  unfold applyUpdateSession
  rcases b.metadata with _ | m <;> rcases b.agentState with _ | a <;> simp
  all_goals repeat' split
  all_goals simp

/-- Every valid client event makes a well-behaved step. -/
theorem stepOK_of_valid (st : ClientState) (e : ClientEvent) (hv : e.valid st) :
    StepOK st e := by
  cases e with
  | envelope b =>
    have hmf := applyUpdateSession_metaFields st b
    have hsf := applyUpdateSession_stateFields st b
    unfold StepOK
    dsimp only [stepClient]
    refine ⟨?_, ?_, ?_, ?_⟩
    · rcases hbm : b.metadata with _ | m <;> rw [hbm] at hmf <;> simp at hmf
      · obtain ⟨h1, h2⟩ := hmf
        omega
      · by_cases hlt : st.metadataVersion < m.version <;> simp [hlt] at hmf <;>
          obtain ⟨h1, h2⟩ := hmf <;> omega
    · rcases hba : b.agentState with _ | a <;> rw [hba] at hsf <;> simp at hsf
      · obtain ⟨h1, h2⟩ := hsf
        omega
      · by_cases hlt : st.agentStateVersion < a.version <;> simp [hlt] at hsf <;>
          obtain ⟨h1, h2⟩ := hsf <;> omega
    · rcases hbm : b.metadata with _ | m <;> rw [hbm] at hmf <;> simp at hmf
      · exact Or.inl (by rw [hmf.1, hmf.2])
      · by_cases hlt : st.metadataVersion < m.version <;> simp [hlt] at hmf
        · exact Or.inr ⟨m, hbm, by rw [hmf.1, hmf.2]⟩
        · exact Or.inl (by rw [hmf.1, hmf.2])
    · rcases hba : b.agentState with _ | a <;> rw [hba] at hsf <;> simp at hsf
      · exact Or.inl (by rw [hsf.1, hsf.2])
      · by_cases hlt : st.agentStateVersion < a.version <;> simp [hlt] at hsf
        · exact Or.inr ⟨a, hba, by rw [hsf.1, hsf.2]⟩
        · exact Or.inl (by rw [hsf.1, hsf.2])
  | metaWrite a =>
    cases a with
    | success v n =>
      have hlt : st.metadataVersion < n := hv
      exact ⟨Nat.le_of_lt hlt, Nat.le_refl _, Or.inr rfl, Or.inl rfl⟩
    | versionMismatch v n =>
      unfold StepOK
      dsimp only [stepClient, applyMetadataAnswer]
      by_cases hlt : n > st.metadataVersion
      · rw [if_pos hlt]
        exact ⟨Nat.le_of_lt hlt, Nat.le_refl _, Or.inr rfl, Or.inl rfl⟩
      · rw [if_neg hlt]
        exact ⟨Nat.le_refl _, Nat.le_refl _, Or.inl rfl, Or.inl rfl⟩
    | hardError =>
      exact ⟨Nat.le_refl _, Nat.le_refl _, Or.inl rfl, Or.inl rfl⟩
  | stateWrite a =>
    cases a with
    | success v n =>
      have hlt : st.agentStateVersion < n := hv
      exact ⟨Nat.le_refl _, Nat.le_of_lt hlt, Or.inl rfl, Or.inr rfl⟩
    | versionMismatch v n =>
      unfold StepOK
      dsimp only [stepClient, applyStateAnswer]
      by_cases hlt : n > st.agentStateVersion
      · rw [if_pos hlt]
        exact ⟨Nat.le_refl _, Nat.le_of_lt hlt, Or.inl rfl, Or.inr rfl⟩
      · rw [if_neg hlt]
        exact ⟨Nat.le_refl _, Nat.le_refl _, Or.inl rfl, Or.inl rfl⟩
    | hardError =>
      exact ⟨Nat.le_refl _, Nat.le_refl _, Or.inl rfl, Or.inl rfl⟩

/-! ## Claims -/

/-- Claim C1, counterexample: with mode `yolo` and tool name
`change_title`, `handleToolCall` resolves with `approved_for_session`,
not `approved` — refuting the claim's conjunct that the decision for
`change_title` is `approved` in every permission mode. -/
theorem kimi_c1_counterexample :
    (handleToolCall ⟨PermissionMode.yolo, [], ⟨[], []⟩⟩ "call_1" "change_title" "x").fst
        = HandleResult.resolved Decision.approvedForSession
    ∧ ¬ ((handleToolCall ⟨PermissionMode.yolo, [], ⟨[], []⟩⟩ "call_1" "change_title" "x").fst
        = HandleResult.resolved Decision.approved) := by
  constructor
  · decide
  · decide

/-- Claim C1 (amended): in `yolo` mode the decision for any tool call is
`approved_for_session`; in `read-only` mode a `writeFile` call whose call
id does not itself match the auto-approve id list is left pending; and a
`change_title` call resolves with `approved` in every mode other than
`yolo` (in `yolo` the decision is `approved_for_session`). -/
theorem kimi_c1_amended :
    (∀ (st : HandlerState) (name cid input : String), st.currentPermissionMode = .yolo →
       (handleToolCall st cid name input).fst = HandleResult.resolved Decision.approvedForSession)
  ∧ (∀ (st : HandlerState) (cid input : String), st.currentPermissionMode = .readOnly →
       idMatchesAutoApprove cid = false →
       (handleToolCall st cid "writeFile" input).fst = HandleResult.pending)
  ∧ (∀ (st : HandlerState) (cid input : String), st.currentPermissionMode ≠ .yolo →
       (handleToolCall st cid "change_title" input).fst
         = HandleResult.resolved Decision.approved) := by
  refine ⟨?_, ?_, ?_⟩
  · intro st name cid input hm
    simp [handleToolCall, hm, shouldAutoApprove_yolo]
  · intro st cid input hm hid
    have hn : nameMatchesAutoApprove "writeFile" = false := by decide
    have hw : (writeTools.any (fun wt => jsIncludes (jsToLower "writeFile") wt)) = true := by
      decide
    simp [handleToolCall, shouldAutoApprove, hn, hid, hm, hw]
  · intro st cid input hm
    have hn : nameMatchesAutoApprove "change_title" = true := by decide
    simp [handleToolCall, shouldAutoApprove, hn, hm]

/-- Claim C1, witness: the amended theorem applied at concrete calls in
`yolo`, `read-only` and `default` modes. -/
theorem kimi_c1_witness :
    ((⟨PermissionMode.yolo, [], ⟨[], []⟩⟩ : HandlerState).currentPermissionMode
        = PermissionMode.yolo
      ∧ (handleToolCall ⟨PermissionMode.yolo, [], ⟨[], []⟩⟩ "call_2" "writeFile" "x").fst
          = HandleResult.resolved Decision.approvedForSession)
  ∧ ((⟨PermissionMode.readOnly, [], ⟨[], []⟩⟩ : HandlerState).currentPermissionMode
        = PermissionMode.readOnly
      ∧ idMatchesAutoApprove "call_2" = false
      ∧ (handleToolCall ⟨PermissionMode.readOnly, [], ⟨[], []⟩⟩ "call_2" "writeFile" "x").fst
          = HandleResult.pending)
  ∧ ((⟨PermissionMode.default, [], ⟨[], []⟩⟩ : HandlerState).currentPermissionMode
        ≠ PermissionMode.yolo
      ∧ (handleToolCall ⟨PermissionMode.default, [], ⟨[], []⟩⟩ "call_2" "change_title" "x").fst
          = HandleResult.resolved Decision.approved) :=
  ⟨⟨rfl, kimi_c1_amended.1 _ "writeFile" "call_2" "x" rfl⟩,
   ⟨rfl, by decide, kimi_c1_amended.2.1 _ "call_2" "x" rfl (by decide)⟩,
   ⟨by decide, kimi_c1_amended.2.2 _ "call_2" "x" (by decide)⟩⟩

/-- Claim C2: along every valid event trace — optimistic-write answers
interleaved with inbound `update-session` envelopes — both locally held
versions are monotonically non-decreasing and each (value, version) pair
is only ever adopted together from one event (so the held version always
belongs to the held value). -/
theorem kimi_c2 (st : ClientState) (es : List ClientEvent) (h : ValidTrace st es) :
    TraceOK st es := by
  induction h with
  | nil => exact trivial
  | cons hv hrest ih => exact ⟨stepOK_of_valid _ _ hv, ih⟩

/-- Claim C2, witness: a concrete four-event trace (successful write,
newer envelope, stale envelope, version-mismatch answer) is valid and
well behaved. -/
theorem kimi_c2_witness :
    ValidTrace (ClientState.mk (some "m0") 1 (some "s0") 1)
      [ClientEvent.metaWrite (MetaAnswer.success "m1" 2),
       ClientEvent.envelope (UpdateSessionBody.mk (some ⟨"m9", 9⟩) (some ⟨some "s9", 9⟩)),
       ClientEvent.envelope (UpdateSessionBody.mk (some ⟨"mOld", 3⟩) none),
       ClientEvent.stateWrite (StateAnswer.versionMismatch (some "s12") 12)]
    ∧ TraceOK (ClientState.mk (some "m0") 1 (some "s0") 1)
      [ClientEvent.metaWrite (MetaAnswer.success "m1" 2),
       ClientEvent.envelope (UpdateSessionBody.mk (some ⟨"m9", 9⟩) (some ⟨some "s9", 9⟩)),
       ClientEvent.envelope (UpdateSessionBody.mk (some ⟨"mOld", 3⟩) none),
       ClientEvent.stateWrite (StateAnswer.versionMismatch (some "s12") 12)] := by
  have hv : ValidTrace (ClientState.mk (some "m0") 1 (some "s0") 1)
      [ClientEvent.metaWrite (MetaAnswer.success "m1" 2),
       ClientEvent.envelope (UpdateSessionBody.mk (some ⟨"m9", 9⟩) (some ⟨some "s9", 9⟩)),
       ClientEvent.envelope (UpdateSessionBody.mk (some ⟨"mOld", 3⟩) none),
       ClientEvent.stateWrite (StateAnswer.versionMismatch (some "s12") 12)] := by
    refine ValidTrace.cons (by decide)
      (ValidTrace.cons (by decide)
        (ValidTrace.cons (by decide)
          (ValidTrace.cons (by decide) (ValidTrace.nil _))))
  exact ⟨hv, kimi_c2 _ _ hv⟩

/-- Claim C3: an `update-session` envelope whose snapshot versions are
all less than or equal to the locally held versions leaves the whole
client state unchanged, and a snapshot is ever applied — to either field
group — only when its version is strictly greater than the held one, in
which case value and version are adopted from the snapshot. -/
theorem kimi_c3 (st : ClientState) (b : UpdateSessionBody) :
    ((∀ m, b.metadata = some m → m.version ≤ st.metadataVersion) →
     (∀ a, b.agentState = some a → a.version ≤ st.agentStateVersion) →
     applyUpdateSession st b = st)
  ∧ (((applyUpdateSession st b).metadata ≠ st.metadata
        ∨ (applyUpdateSession st b).metadataVersion ≠ st.metadataVersion) →
      ∃ m, b.metadata = some m ∧ st.metadataVersion < m.version
        ∧ (applyUpdateSession st b).metadata = some m.value
        ∧ (applyUpdateSession st b).metadataVersion = m.version)
  ∧ (((applyUpdateSession st b).agentState ≠ st.agentState
        ∨ (applyUpdateSession st b).agentStateVersion ≠ st.agentStateVersion) →
      ∃ a, b.agentState = some a ∧ st.agentStateVersion < a.version
        ∧ (applyUpdateSession st b).agentState = a.value
        ∧ (applyUpdateSession st b).agentStateVersion = a.version) := by
  refine ⟨?_, ?_, ?_⟩
  · intro hm ha
    unfold applyUpdateSession
    rcases hbm : b.metadata with _ | m <;> rcases hba : b.agentState with _ | a <;> dsimp only
    all_goals try rw [if_neg (Nat.not_lt.mpr (hm m hbm))]
    all_goals try rw [if_neg (Nat.not_lt.mpr (ha a hba))]
  · intro hne
    have hf := applyUpdateSession_metaFields st b
    rcases hbm : b.metadata with _ | m <;> rw [hbm] at hf <;> simp at hf
    · rcases hne with h | h
      · exact absurd hf.1 h
      · exact absurd hf.2 h
    · by_cases hlt : st.metadataVersion < m.version
      · simp [hlt] at hf
        exact ⟨m, rfl, hlt, hf.1, hf.2⟩
      · simp [hlt] at hf
        rcases hne with h | h
        · exact absurd hf.1 h
        · exact absurd hf.2 h
  · intro hne
    have hf := applyUpdateSession_stateFields st b
    rcases hba : b.agentState with _ | a <;> rw [hba] at hf <;> simp at hf
    · rcases hne with h | h
      · exact absurd hf.1 h
      · exact absurd hf.2 h
    · by_cases hlt : st.agentStateVersion < a.version
      · simp [hlt] at hf
        exact ⟨a, rfl, hlt, hf.1, hf.2⟩
      · simp [hlt] at hf
        rcases hne with h | h
        · exact absurd hf.1 h
        · exact absurd hf.2 h

/-- Claim C3, witness: a concrete stale envelope (versions 3 and 2
against held versions 5 and 4) is discarded without mutating the state. -/
theorem kimi_c3_witness :
    ((∀ m, (UpdateSessionBody.mk (some ⟨"newmeta", 3⟩) (some ⟨some "newstate", 2⟩)).metadata
          = some m
        → m.version ≤ (ClientState.mk (some "meta") 5 (some "state") 4).metadataVersion)
      ∧ (∀ a, (UpdateSessionBody.mk (some ⟨"newmeta", 3⟩) (some ⟨some "newstate", 2⟩)).agentState
          = some a
        → a.version ≤ (ClientState.mk (some "meta") 5 (some "state") 4).agentStateVersion))
    ∧ applyUpdateSession (ClientState.mk (some "meta") 5 (some "state") 4)
        (UpdateSessionBody.mk (some ⟨"newmeta", 3⟩) (some ⟨some "newstate", 2⟩))
      = ClientState.mk (some "meta") 5 (some "state") 4 := by
  refine ⟨⟨?_, ?_⟩, ?_⟩
  · intro m hm
    cases hm
    decide
  · intro a ha
    cases ha
    decide
  · exact (kimi_c3 _ _).1 (fun m hm => by cases hm; decide) (fun a ha => by cases ha; decide)

/-- Claim C4: dequeuing a prompt whose mode hash differs from the hash of
the running backend (session created, hash tracked, backend live)
performs, in order, exactly one permission-gate reset and reasoning
abort, one dispose of the old backend, one creation and one ACP session
start of a new backend, sets the new permission mode, and only then
forwards the prompt — with the conversation-history context prepended
exactly when the history buffer is non-empty. -/
theorem kimi_c4 (st : LoopState) (msg : QueuedMessage) (ctx : List Char)
    (b : Nat) (h0 : List Char)
    (hw : st.wasSessionCreated = true) (hh : st.currentModeHash = some h0)
    (hne : msg.hash ≠ h0) (hb : st.backend = some b) :
    ∃ st2 b2 sid acts,
      processMessage st msg ctx = Except.ok (st2, acts)
      ∧ acts = [LoopAction.permissionReset, LoopAction.reasoningAbort,
          LoopAction.disposeBackend b, LoopAction.createBackend b2,
          LoopAction.startAcpSession b2 sid,
          LoopAction.setPermissionMode msg.mode.permissionMode,
          LoopAction.sendPrompt sid
            (if st.historyNonempty then ctx ++ msg.message else msg.message)
            st.historyNonempty]
      ∧ acts.countP (fun a => a.isDispose) = 1
      ∧ acts.countP (fun a => a.isCreate) = 1
      ∧ acts.countP (fun a => a.isStart) = 1
      ∧ acts.countP (fun a => a.isSend) = 1
      ∧ LoopAction.permissionReset ∈ acts := by
  have hEq : processMessage st msg ctx = Except.ok
      ({ wasSessionCreated := true, currentModeHash := some msg.hash,
         backend := some st.nextId, acpSessionId := some (st.nextId + 1),
         firstFlag := false, historyNonempty := st.historyNonempty,
         nextId := st.nextId + 2 },
       [LoopAction.permissionReset, LoopAction.reasoningAbort,
        LoopAction.disposeBackend b, LoopAction.createBackend st.nextId,
        LoopAction.startAcpSession st.nextId (st.nextId + 1),
        LoopAction.setPermissionMode msg.mode.permissionMode,
        LoopAction.sendPrompt (st.nextId + 1)
          (if st.historyNonempty then ctx ++ msg.message else msg.message)
          st.historyNonempty]) := by
    unfold processMessage
    rw [hh, hb]
    cases hhist : st.historyNonempty <;> simp [hw, hne]
  refine ⟨_, st.nextId, st.nextId + 1, _, hEq, rfl, ?_, ?_, ?_, ?_, ?_⟩
  · simp [List.countP_cons, LoopAction.isDispose, LoopAction.isCreate,
      LoopAction.isStart, LoopAction.isSend]
  · simp [List.countP_cons, LoopAction.isDispose, LoopAction.isCreate,
      LoopAction.isStart, LoopAction.isSend]
  · simp [List.countP_cons, LoopAction.isDispose, LoopAction.isCreate,
      LoopAction.isStart, LoopAction.isSend]
  · simp [List.countP_cons, LoopAction.isDispose, LoopAction.isCreate,
      LoopAction.isStart, LoopAction.isSend]
  · simp

/-- Claim C4, witness: a concrete mode change (hash `b` against running
hash `a`) performs one dispose, one create and one session start, and
resets the Permission Gate. -/
theorem kimi_c4_witness :
    ∃ (st2 : LoopState) (acts : List LoopAction),
      processMessage
          (LoopState.mk true (some ['a']) (some 7) (some 3) false true 10)
          (QueuedMessage.mk "hi".data (KimiMode.mk PermissionMode.default none none) ['b'])
          "ctx:".data
        = Except.ok (st2, acts)
      ∧ acts.countP (fun a => a.isDispose) = 1
      ∧ acts.countP (fun a => a.isCreate) = 1
      ∧ acts.countP (fun a => a.isStart) = 1
      ∧ LoopAction.permissionReset ∈ acts := by
  obtain ⟨st2, b2, sid, acts, h1, _, h3, h4, h5, _, h7⟩ :=
    kimi_c4 (LoopState.mk true (some ['a']) (some 7) (some 3) false true 10)
      (QueuedMessage.mk "hi".data (KimiMode.mk PermissionMode.default none none) ['b'])
      "ctx:".data 7 ['a'] rfl rfl (by decide) rfl
  exact ⟨st2, acts, h1, h3, h4, h5, h7⟩

/-- Claim C5: a tool call matching the hard-coded always-auto-approve
name or id set resolves immediately with an approval in every permission
mode, leaves both the in-memory `pendingRequests` map and
`agentState.pendingRequests` untouched, and only adds the completed entry
to `agentState.completedRequests`. -/
theorem kimi_c5 (st : HandlerState) (cid name input : String)
    (h : nameMatchesAutoApprove name = true ∨ idMatchesAutoApprove cid = true) :
    ((handleToolCall st cid name input).fst =
        HandleResult.resolved
          (if st.currentPermissionMode = .yolo then Decision.approvedForSession
           else Decision.approved))
    ∧ (handleToolCall st cid name input).snd.pendingRequests = st.pendingRequests
    ∧ (handleToolCall st cid name input).snd.agentState.pendingRequests
        = st.agentState.pendingRequests
    ∧ (handleToolCall st cid name input).snd.currentPermissionMode = st.currentPermissionMode
    ∧ (handleToolCall st cid name input).snd.agentState.completedRequests =
        (cid, { tool := name, arguments := input,
                decision := if st.currentPermissionMode = .yolo then Decision.approvedForSession
                  else Decision.approved })
          :: st.agentState.completedRequests := by
  have ha := shouldAutoApprove_of_match st.currentPermissionMode h
  simp [handleToolCall, ha]

/-- Claim C5, witness: a `think` tool call under `default` mode is
approved without creating any pending permission request entry. -/
theorem kimi_c5_witness :
    (nameMatchesAutoApprove "think" = true ∨ idMatchesAutoApprove "call_9" = true)
    ∧ (handleToolCall ⟨PermissionMode.default, [], ⟨[], []⟩⟩ "call_9" "think" "x").fst
        = HandleResult.resolved Decision.approved
    ∧ (handleToolCall ⟨PermissionMode.default, [], ⟨[], []⟩⟩ "call_9" "think" "x").snd.pendingRequests
        = []
    ∧ (handleToolCall ⟨PermissionMode.default, [], ⟨[], []⟩⟩
        "call_9" "think" "x").snd.agentState.pendingRequests = [] := by
  have h := kimi_c5 ⟨PermissionMode.default, [], ⟨[], []⟩⟩ "call_9" "think" "x"
    (Or.inl (by decide))
  exact ⟨Or.inl (by decide), h.1, h.2.1, h.2.2.1⟩

/-- Claim C6: the mode hash depends only on `permissionMode` and `model`
— two modes agreeing there hash equal whatever their original user
message — and modes that agree on the permission mode but differ in the
model hash different. -/
theorem kimi_c6 :
    (∀ m1 m2 : KimiMode, m1.permissionMode = m2.permissionMode → m1.model = m2.model →
       modeHash m1 = modeHash m2)
  ∧ (∀ m1 m2 : KimiMode, m1.permissionMode = m2.permissionMode → m1.model ≠ m2.model →
       modeHash m1 ≠ modeHash m2) := by
  constructor
  · intro m1 m2 h1 h2
    unfold modeHash
    rw [h1, h2]
  · intro m1 m2 h1 hne heq
    have h := hashObject_inj heq
    exact hne (congrArg ModeHashInput.model h)

/-- Claim C6, witness: the scenario hashes — same `{default, m1}` twice
with different display text collide; changing only the model to `m2`
does not. -/
theorem kimi_c6_witness :
    modeHash ⟨PermissionMode.default, some "m1", some "hello"⟩
      = modeHash ⟨PermissionMode.default, some "m1", none⟩
  ∧ modeHash ⟨PermissionMode.default, some "m1", some "hello"⟩
      ≠ modeHash ⟨PermissionMode.default, some "m2", some "hello"⟩ :=
  ⟨kimi_c6.1 _ _ rfl rfl, kimi_c6.2 _ _ rfl (by decide)⟩

/-- Claim C7: a session swap arriving while a turn is processing is only
queued — session and permission handler keep their bindings — and is
applied by the turn's `finally` block; a swap arriving while idle is
applied immediately. -/
theorem kimi_c7 :
    (∀ (st : SwapState) (s : Nat), st.isProcessingMessage = true →
        (onSessionSwap s st).sessionRef = st.sessionRef
      ∧ (onSessionSwap s st).permissionHandlerSession = st.permissionHandlerSession
      ∧ (onSessionSwap s st).pendingSessionSwap = some s
      ∧ (endTurnFinally (onSessionSwap s st)).sessionRef = s
      ∧ (endTurnFinally (onSessionSwap s st)).permissionHandlerSession
          = st.permissionHandlerSession.map (fun _ => s)
      ∧ (endTurnFinally (onSessionSwap s st)).pendingSessionSwap = none
      ∧ (endTurnFinally (onSessionSwap s st)).isProcessingMessage = false)
  ∧ (∀ (st : SwapState) (s : Nat), st.isProcessingMessage = false →
        (onSessionSwap s st).sessionRef = s
      ∧ (onSessionSwap s st).permissionHandlerSession
          = st.permissionHandlerSession.map (fun _ => s)
      ∧ (onSessionSwap s st).pendingSessionSwap = st.pendingSessionSwap) := by
  constructor
  · intro st s h
    simp [onSessionSwap, endTurnFinally, applyPendingSessionSwap, h]
  · intro st s h
    simp [onSessionSwap, h]

/-- Claim C7, witness: a swap of session 5 during processing is deferred
until the turn ends; while idle it is applied at once. -/
theorem kimi_c7_witness :
    ((⟨true, none, 0, some 0⟩ : SwapState).isProcessingMessage = true
      ∧ (onSessionSwap 5 ⟨true, none, 0, some 0⟩).sessionRef = 0
      ∧ (endTurnFinally (onSessionSwap 5 ⟨true, none, 0, some 0⟩)).sessionRef = 5)
  ∧ ((⟨false, none, 0, some 0⟩ : SwapState).isProcessingMessage = false
      ∧ (onSessionSwap 5 ⟨false, none, 0, some 0⟩).sessionRef = 5) :=
  ⟨⟨rfl, (kimi_c7.1 ⟨true, none, 0, some 0⟩ 5 rfl).1,
      (kimi_c7.1 ⟨true, none, 0, some 0⟩ 5 rfl).2.2.2.1⟩,
   ⟨rfl, (kimi_c7.2 ⟨false, none, 0, some 0⟩ 5 rfl).1⟩⟩

/-- Claim C8, counterexample: `handleAbort` does not clear the Permission
Gate — after it runs on a state with one pending entry, the entry is
still there, refuting the claim that the pending set is empty after every
abort. -/
theorem kimi_c8_counterexample :
    (handleAbort ⟨[("call_1", "writeFile", "x")], true, false, 2, false⟩).pendingPermissions
      ≠ [] := by
  decide

/-- Claim C8 (amended): the per-turn `finally` reset empties the pending
permission entries after every turn, normal or failed; `handleAbort`
itself leaves them untouched, so after an abort they are cleared only
when the aborted turn's `finally` block runs. -/
theorem kimi_c8_amended :
    (∀ st : OrchState, (turnFinallyReset st).pendingPermissions = [])
  ∧ (∀ st : OrchState, (handleAbort st).pendingPermissions = st.pendingPermissions)
  ∧ (∀ st : OrchState, (turnFinallyReset (handleAbort st)).pendingPermissions = []) :=
  ⟨fun _ => rfl, fun _ => rfl, fun _ => rfl⟩

/-- Claim C9: the stdout filter drops every whitespace-only line, drops
every line whose trimmed text does not parse as a JSON object or array
(parse failures and JSON primitives alike), and returns the original line
unchanged whenever the trimmed text starts with a brace or bracket and
parses to an object or array. -/
theorem kimi_c9 :
    (∀ line : List Char, line.all isJsTrimWs = true → filterStdoutLine line = none)
  ∧ (∀ line : List Char, (∀ v, jsonParse (jsTrim line) = some v → v.isObjOrArr = false) →
       filterStdoutLine line = none)
  ∧ (∀ (line : List Char) (v : Json),
       (startsWithList (jsTrim line) ['\x7b'] = true
         ∨ startsWithList (jsTrim line) ['['] = true) →
       jsonParse (jsTrim line) = some v → v.isObjOrArr = true →
       filterStdoutLine line = some line) := by
  refine ⟨?_, ?_, ?_⟩
  · intro line h
    unfold filterStdoutLine
    rw [jsTrim_eq_nil h]
    rfl
  · intro line h
    unfold filterStdoutLine
    by_cases h1 : (jsTrim line).isEmpty
    · simp [h1]
    · simp only [h1, Bool.false_eq_true, if_false]
      by_cases h2 : (startsWithList (jsTrim line) ['\x7b']
          || startsWithList (jsTrim line) ['[']) = true
      · simp only [h2, Bool.not_true, Bool.false_eq_true, if_false]
        cases heq : jsonParse (jsTrim line) with
        | none => rfl
        | some v => simp [h v heq]
      · simp only [Bool.not_eq_true] at h2
        simp [h2]
  · intro line v hstart hparse hobj
    have hne : (jsTrim line).isEmpty = false := by
      rcases hstart with h | h <;>
        · cases hs : jsTrim line with
          | nil => rw [hs] at h; simp [startsWithList] at h
          | cons c t => rfl
    unfold filterStdoutLine
    have h2 : (startsWithList (jsTrim line) ['\x7b']
        || startsWithList (jsTrim line) ['[']) = true := by
      rcases hstart with h | h <;> simp [h]
    simp [hne, h2, hparse, hobj]

/-- Claim C9, witness: a blank line and the primitive `42` are dropped, a
malformed brace line is dropped, and a well-formed JSON object line is
returned unchanged. -/
theorem kimi_c9_witness :
    ("  ".data.all isJsTrimWs = true
      ∧ filterStdoutLine "  ".data = none)
  ∧ ((∀ v, jsonParse (jsTrim "42".data) = some v → v.isObjOrArr = false)
      ∧ filterStdoutLine "42".data = none)
  ∧ ((∀ v, jsonParse (jsTrim "\x7b broken".data) = some v → v.isObjOrArr = false)
      ∧ filterStdoutLine "\x7b broken".data = none)
  ∧ ((startsWithList (jsTrim " \x7b\"a\": [1, true, null]\x7d ".data) ['\x7b'] = true
        ∨ startsWithList (jsTrim " \x7b\"a\": [1, true, null]\x7d ".data) ['['] = true)
      ∧ jsonParse (jsTrim " \x7b\"a\": [1, true, null]\x7d ".data)
          = some (Json.obj [Json.arr [Json.number, Json.boolean true, Json.null]])
      ∧ (Json.obj [Json.arr [Json.number, Json.boolean true, Json.null]]).isObjOrArr = true
      ∧ filterStdoutLine " \x7b\"a\": [1, true, null]\x7d ".data
          = some " \x7b\"a\": [1, true, null]\x7d ".data) := by
  have h42 : jsonParse (jsTrim "42".data) = some Json.number := rfl
  have hbroken : jsonParse (jsTrim "\x7b broken".data) = none := rfl
  have hobj : jsonParse (jsTrim " \x7b\"a\": [1, true, null]\x7d ".data)
      = some (Json.obj [Json.arr [Json.number, Json.boolean true, Json.null]]) := rfl
  have hprim : ∀ v, jsonParse (jsTrim "42".data) = some v → v.isObjOrArr = false := by
    intro v hv
    rw [h42] at hv
    cases hv
    rfl
  have hnoparse : ∀ v, jsonParse (jsTrim "\x7b broken".data) = some v → v.isObjOrArr = false := by
    intro v hv
    rw [hbroken] at hv
    cases hv
  refine ⟨⟨by decide, kimi_c9.1 _ (by decide)⟩,
    ⟨hprim, kimi_c9.2.1 _ hprim⟩,
    ⟨hnoparse, kimi_c9.2.1 _ hnoparse⟩,
    ⟨Or.inl (by decide), hobj, rfl, kimi_c9.2.2 _ _ (Or.inl (by decide)) hobj rfl⟩⟩

/-- Claim C10, counterexample: with `explicitModel = null`, no
environment model and a configured local model, `getKimiModelSource`
reports `local-config` although `determineKimiModel` skips the local
config and returns the default — refuting the claimed mutual consistency. -/
theorem kimi_c10_counterexample :
    ¬ ((getKimiModelSource (some none) none (some "my-model") = ModelSource.localConfig)
        ↔ (determineKimiModel (some none) none (some "my-model") = "my-model")) := by
  decide

/-- Claim C10 (amended): each source label implies the corresponding
returned value — `explicit` returns the explicit model, `env-var` the
environment model, `default` the default model, and `local-config` the
local model provided `explicitModel` is not null; when `explicitModel` is
null the label `local-config` can be reported while the default model is
returned. -/
theorem kimi_c10_amended (e : Option (Option String)) (env lcl : Option String) :
    (getKimiModelSource e env lcl = .explicitSrc →
      ∃ m, e = some (some m) ∧ determineKimiModel e env lcl = m)
  ∧ (getKimiModelSource e env lcl = .envVar →
      ∃ v, env = some v ∧ determineKimiModel e env lcl = v)
  ∧ (getKimiModelSource e env lcl = .localConfig → e ≠ some none →
      ∃ v, lcl = some v ∧ determineKimiModel e env lcl = v)
  ∧ (getKimiModelSource e env lcl = .defaultSrc →
      determineKimiModel e env lcl = DEFAULT_KIMI_MODEL) := by
  rcases e with _ | em
  · rcases env with _ | ev
    · rcases lcl with _ | lv
      · simp [getKimiModelSource, determineKimiModel, truthyStr, orElseStr]
      · by_cases hl : lv = ""
        · simp [getKimiModelSource, determineKimiModel, truthyStr, orElseStr, hl]
        · simp [getKimiModelSource, determineKimiModel, truthyStr, orElseStr, hl]
    · by_cases he : ev = ""
      · rcases lcl with _ | lv
        · simp [getKimiModelSource, determineKimiModel, truthyStr, orElseStr, he]
        · by_cases hl : lv = ""
          · simp [getKimiModelSource, determineKimiModel, truthyStr, orElseStr, he, hl]
          · simp [getKimiModelSource, determineKimiModel, truthyStr, orElseStr, he, hl]
      · simp [getKimiModelSource, determineKimiModel, truthyStr, orElseStr, he]
  · rcases em with _ | m
    · rcases env with _ | ev
      · rcases lcl with _ | lv
        · simp [getKimiModelSource, determineKimiModel, truthyStr, orElseStr]
        · by_cases hl : lv = ""
          · simp [getKimiModelSource, determineKimiModel, truthyStr, orElseStr, hl]
          · simp [getKimiModelSource, determineKimiModel, truthyStr, orElseStr, hl]
      · by_cases he : ev = ""
        · rcases lcl with _ | lv
          · simp [getKimiModelSource, determineKimiModel, truthyStr, orElseStr, he]
          · by_cases hl : lv = ""
            · simp [getKimiModelSource, determineKimiModel, truthyStr, orElseStr, he, hl]
            · simp [getKimiModelSource, determineKimiModel, truthyStr, orElseStr, he, hl]
        · simp [getKimiModelSource, determineKimiModel, truthyStr, orElseStr, he]
    · simp [getKimiModelSource, determineKimiModel]

/-- Claim C10, witness: the amended theorem applied at an environment
selection and at a genuine local-config selection. -/
theorem kimi_c10_witness :
    (getKimiModelSource none (some "kimi-env") none = ModelSource.envVar
      ∧ ∃ v, (some "kimi-env" : Option String) = some v
          ∧ determineKimiModel none (some "kimi-env") none = v)
  ∧ (getKimiModelSource none none (some "kimi-cfg") = ModelSource.localConfig
      ∧ (none : Option (Option String)) ≠ some none
      ∧ ∃ v, (some "kimi-cfg" : Option String) = some v
          ∧ determineKimiModel none none (some "kimi-cfg") = v) :=
  ⟨⟨by decide, (kimi_c10_amended none (some "kimi-env") none).2.1 (by decide)⟩,
   ⟨by decide, by decide,
     (kimi_c10_amended none none (some "kimi-cfg")).2.2.1 (by decide) (by decide)⟩⟩
